import Mathlib

/-!
Verification of the battery-report parsing and health-scoring pipeline of
`src/agent/battery_agent.py`.

The document text is represented as `List Char`.  Every regular expression in
the source is compiled with `re.IGNORECASE | re.DOTALL` and, at each starting
position, matches deterministically (each greedy/lazy sub-pattern is forced by
the literal that follows it), so each pattern is embedded as a scanner that
attempts an anchored match at every position from the left, exactly as
`re.search` / `re.findall` do.  File reading (`Path.read_text`) is I/O outside
the core and is modelled by passing the document text directly; the one
impure value in the payload, `datetime.utcnow().isoformat()`, is modelled as
an explicit clock argument to `build_payload`.
-/

namespace BatteryAgent

/-- ASCII lowering, modelling what `re.IGNORECASE` and `str.lower()` do on the
ASCII labels and header words this program matches (the source never relies on
non-ASCII case folding). -/
def lowerC (c : Char) : Char :=
  if 'A' ≤ c ∧ c ≤ 'Z' then Char.ofNat (c.toNat + 32) else c

/-- The whitespace class of Python's `\s` (and `str.strip`) restricted to the
characters that can appear here: ASCII whitespace plus the no-break space that
`&nbsp;` decodes to. -/
def isPySpace (c : Char) : Bool :=
  c == ' ' || c == '\t' || c == '\n' || c == '\r' || c == '\x0b' || c == '\x0c' || c == '\xa0'

/-- `\s*` at a point where the following pattern character is never whitespace:
greedy and deterministic, i.e. drop the maximal whitespace run. -/
def dropPyWS (s : List Char) : List Char := s.dropWhile isPySpace

/-- Models `html.unescape` for the character references that occur in
`battery-report.html` (`&amp;`, `&lt;`, `&gt;`, `&quot;`, `&nbsp;`); any other
ampersand sequence passes through unchanged, as `html.unescape` does for
invalid references. -/
def unescapeChars : List Char → List Char
  | [] => []
  | '&' :: 'a' :: 'm' :: 'p' :: ';' :: r => '&' :: unescapeChars r
  | '&' :: 'l' :: 't' :: ';' :: r => '<' :: unescapeChars r
  | '&' :: 'g' :: 't' :: ';' :: r => '>' :: unescapeChars r
  | '&' :: 'q' :: 'u' :: 'o' :: 't' :: ';' :: r => '"' :: unescapeChars r
  | '&' :: 'n' :: 'b' :: 's' :: 'p' :: ';' :: r => '\xa0' :: unescapeChars r
  | c :: cs => c :: unescapeChars cs

/-- `re.sub(r"\s+", " ", ·)`: collapse every run of whitespace to one space.
The flag records whether the previous character was part of a whitespace run. -/
def collapseAux : Bool → List Char → List Char
  | _, [] => []
  | prevWS, c :: cs =>
    if isPySpace c then
      if prevWS then collapseAux true cs else ' ' :: collapseAux true cs
    else c :: collapseAux false cs

def collapseWS (s : List Char) : List Char := collapseAux false s

/-- `str.strip()`: trim whitespace from both ends. -/
def trimWS (s : List Char) : List Char :=
  ((s.dropWhile isPySpace).reverse.dropWhile isPySpace).reverse

/-- `_clean_html`: `re.sub(r"\s+", " ", unescape(text)).strip()`. -/
def clean_html (s : List Char) : List Char := trimWS (collapseWS (unescapeChars s))

/-- Case-insensitive literal match: if `s` starts with `lit` up to ASCII case,
return the rest of `s`, else `none`. -/
def stripCI : List Char → List Char → Option (List Char)
  | [], s => some s
  | _ :: _, [] => none
  | l :: ls, c :: cs => if lowerC c = lowerC l then stripCI ls cs else none

/-- The lazy `(.*?)lit` step: split `s` at the earliest occurrence of `lit`
(case-insensitively), returning the text before it and the text after it. -/
def splitFirstCI (lit : List Char) : List Char → Option (List Char × List Char)
  | [] =>
    match stripCI lit [] with
    | some r => some ([], r)
    | none => none
  | c :: cs =>
    match stripCI lit (c :: cs) with
    | some r => some ([], r)
    | none =>
      match splitFirstCI lit cs with
      | some (a, b) => some (c :: a, b)
      | none => none

/-- `[^>]*>`: skip the maximal run of non-`>` characters, then consume the
`>` itself (fail if the string ends first). -/
def skipAttrs (s : List Char) : Option (List Char) :=
  match s.dropWhile (fun c => c != '>') with
  | [] => none
  | _ :: rest => some rest

/-- Anchored attempt of `_find_label_value`'s pattern
`label\s*</td>\s*<td[^>]*>(.*?)</td>` at the start of `s`, returning the raw
text of the capture group. -/
def tryPatLabel (label s : List Char) : Option (List Char) :=
  match stripCI label s with
  | none => none
  | some s1 =>
    match stripCI "</td>".data (dropPyWS s1) with
    | none => none
    | some s3 =>
      match stripCI "<td".data (dropPyWS s3) with
      | none => none
      | some s5 =>
        match skipAttrs s5 with
        | none => none
        | some s6 =>
          match splitFirstCI "</td>".data s6 with
          | none => none
          | some (cap, _) => some cap

/-- `re.search`: try the anchored pattern at every position from the left and
return the first success (positions run over all suffixes of `s`, the empty
suffix included). -/
def scanFirst (t : List Char → Option (List Char)) : List Char → Option (List Char)
  | [] => t []
  | c :: cs =>
    match t (c :: cs) with
    | some v => some v
    | none => scanFirst t cs

/-- `_find_label_value`: first match of the label/value pattern in document
order, its capture normalised by `_clean_html`; `None` when there is no match. -/
def find_label_value (html label : List Char) : Option (List Char) :=
  (scanFirst (tryPatLabel label) html).map clean_html

/-- Anchored attempt of `_extract_section`'s pattern
`title\s*</h2>\s*(<table.*?</table>)` at the start of `s`.  The capture group
is the slice of the original text from `<table` to the earliest following
`</table>` inclusive (6 and 8 are the lengths of those two literals). -/
def tryPatSection (title s : List Char) : Option (List Char) :=
  match stripCI title s with
  | none => none
  | some s1 =>
    match stripCI "</h2>".data (dropPyWS s1) with
    | none => none
    | some s3 =>
      match stripCI "<table".data (dropPyWS s3) with
      | none => none
      | some s5 =>
        match splitFirstCI "</table>".data s5 with
        | none => none
        | some (mid, _) => some ((dropPyWS s3).take (6 + mid.length + 8))

/-- `_extract_section`: raw markup of the first table following the section
title, or `None` when the heading or its table is not found. -/
def extract_section (html title : List Char) : Option (List Char) :=
  scanFirst (tryPatSection title) html

/-- `_parse_int`'s digit fold: `int(digits)` on a non-empty decimal digit
string. -/
def digitsToNat (ds : List Char) : ℕ :=
  ds.foldl (fun acc c => 10 * acc + (c.toNat - 48)) 0

/-- `_parse_int`: `None` on a falsy input (`None` or the empty string), else
delete every non-digit (`re.sub(r"[^0-9]", "", value)`) and parse what is
left, `None` again when no digit remains. -/
def parse_int (value : Option (List Char)) : Option ℕ :=
  match value with
  | none => none
  | some v =>
    if v = [] then none
    else
      let digits := v.filter Char.isDigit
      if digits = [] then none else some (digitsToNat digits)

/-- Anchored attempt of the row pattern `<tr>(.*?)</tr>`: the capture and the
text after the match. -/
def tryTR (s : List Char) : Option (List Char × List Char) :=
  match stripCI "<tr>".data s with
  | none => none
  | some s1 => splitFirstCI "</tr>".data s1

/-- `re.findall` scan for the row pattern: fuelled left-to-right scan; from a
failed position move one character right, from a match continue after it.
Every step consumes at least one character, so fuel `s.length` never runs out. -/
def findAllTRAux : ℕ → List Char → List (List Char)
  | 0, _ => []
  | _ + 1, [] => []
  | fuel + 1, c :: cs =>
    match tryTR (c :: cs) with
    | some (cap, rest) => cap :: findAllTRAux fuel rest
    | none => findAllTRAux fuel cs

def findAllTR (s : List Char) : List (List Char) := findAllTRAux s.length s

/-- The earliest occurrence of `</td>` or `</th>` (the lazy
`(.*?)</t[dh]>` step of the cell pattern). -/
def splitFirstClose : List Char → Option (List Char × List Char)
  | [] => none
  | c :: cs =>
    match stripCI "</td>".data (c :: cs) with
    | some r => some ([], r)
    | none =>
      match stripCI "</th>".data (c :: cs) with
      | some r => some ([], r)
      | none =>
        match splitFirstClose cs with
        | some (a, b) => some (c :: a, b)
        | none => none

/-- Anchored attempt of the cell pattern `<t[dh][^>]*>(.*?)</t[dh]>`. -/
def tryCell (s : List Char) : Option (List Char × List Char) :=
  match stripCI "<t".data s with
  | none => none
  | some s1 =>
    match s1 with
    | [] => none
    | c :: s2 =>
      if lowerC c = 'd' ∨ lowerC c = 'h' then
        match skipAttrs (c :: s2) with
        | none => none
        | some s3 => splitFirstClose s3
      else none

/-- `re.findall` scan for the cell pattern (fuelled like `findAllTRAux`). -/
def findAllCellAux : ℕ → List Char → List (List Char)
  | 0, _ => []
  | _ + 1, [] => []
  | fuel + 1, c :: cs =>
    match tryCell (c :: cs) with
    | some (cap, rest) => cap :: findAllCellAux fuel rest
    | none => findAllCellAux fuel cs

def findAllCell (s : List Char) : List (List Char) := findAllCellAux s.length s

structure CapacityHistoryEntry where
  date : List Char
  full_charge_capacity_mwh : Option ℕ
  design_capacity_mwh : Option ℕ
deriving DecidableEq

/-- `[_clean_html(cell) for cell in cell_pattern.findall(row)]`. -/
def cellsOfRow (row : List Char) : List (List Char) :=
  (findAllCell row).map clean_html

/-- The row that survives filtering: at least 3 cells and a first cell that
does not lowercase to `"period"`. -/
def keepRow (cells : List (List Char)) : Bool :=
  decide (3 ≤ cells.length) && decide ((cells.headD []).map lowerC ≠ "period".data)

/-- The entry built from a surviving row: cell 1 is the date label, cells 2
and 3 go through `_parse_int`. -/
def rowEntry (cells : List (List Char)) : CapacityHistoryEntry :=
  { date := cells.headD []
    full_charge_capacity_mwh := parse_int (some (cells.getD 1 []))
    design_capacity_mwh := parse_int (some (cells.getD 2 [])) }

/-- The `for row in row_pattern.findall(...)` loop of
`_parse_capacity_history`: skip a row with fewer than 3 cells or whose first
cell lowercases to `"period"`, append an entry for every other row. -/
def historyRows : List (List Char) → List CapacityHistoryEntry
  | [] => []
  | row :: rest =>
    let cells := cellsOfRow row
    if cells.length < 3 ∨ (cells.headD []).map lowerC = "period".data then
      historyRows rest
    else rowEntry cells :: historyRows rest

/-- `_parse_capacity_history`: empty when the section is falsy (`None` or the
empty string, as `if not table_html` tests), otherwise the filtered rows of
the table. -/
def parse_capacity_history (html : List Char) : List CapacityHistoryEntry :=
  match extract_section html "Battery capacity history".data with
  | none => []
  | some t => if t = [] then [] else historyRows (findAllTR t)

structure SystemInfo where
  product : Option (List Char)
  bios : Option (List Char)
  os_build : Option (List Char)
  report_time : Option (List Char)
deriving DecidableEq

structure BatteryInfo where
  name : Option (List Char)
  manufacturer : Option (List Char)
  chemistry : Option (List Char)
  design_capacity_mwh : Option ℕ
  full_charge_capacity_mwh : Option ℕ
  cycle_count : Option ℕ
deriving DecidableEq

/-- `_parse_system_info`. -/
def parse_system_info (html : List Char) : SystemInfo :=
  { product := find_label_value html "System Product Name".data
    bios := find_label_value html "BIOS".data
    os_build := find_label_value html "OS build".data
    report_time := find_label_value html "Report Time".data }

/-- `parse_battery_report`, from the document text onward (the
`read_text` call is I/O outside the embedded core). -/
def parse_battery_report (html : List Char) :
    SystemInfo × BatteryInfo × List CapacityHistoryEntry :=
  let name := find_label_value html "Name".data
  let manufacturer := find_label_value html "Manufacturer".data
  let chemistry := find_label_value html "Chemistry".data
  let design_capacity := parse_int (find_label_value html "Design Capacity".data)
  let full_charge_capacity := parse_int (find_label_value html "Full Charge Capacity".data)
  let cycle_count := parse_int (find_label_value html "Cycle Count".data)
  let system_info := parse_system_info html
  let battery_info : BatteryInfo :=
    { name := name
      manufacturer := manufacturer
      chemistry := chemistry
      design_capacity_mwh := design_capacity
      full_charge_capacity_mwh := full_charge_capacity
      cycle_count := cycle_count }
  let history := parse_capacity_history html
  (system_info, battery_info, history)

/-- The eleven independently extracted slots of `parse_battery_report`: the
ten labelled fields and the capacity-history section. -/
inductive ReportField
  | name
  | manufacturer
  | chemistry
  | design
  | fullCharge
  | cycle
  | product
  | bios
  | osBuild
  | reportTime
  | history
deriving DecidableEq, Fintype

/-- The raw text the parser extracts for a slot: the label's value container
for the ten fields, the section's table markup for the history. -/
def fieldSource (html : List Char) : ReportField → Option (List Char)
  | .name => find_label_value html "Name".data
  | .manufacturer => find_label_value html "Manufacturer".data
  | .chemistry => find_label_value html "Chemistry".data
  | .design => find_label_value html "Design Capacity".data
  | .fullCharge => find_label_value html "Full Charge Capacity".data
  | .cycle => find_label_value html "Cycle Count".data
  | .product => find_label_value html "System Product Name".data
  | .bios => find_label_value html "BIOS".data
  | .osBuild => find_label_value html "OS build".data
  | .reportTime => find_label_value html "Report Time".data
  | .history => extract_section html "Battery capacity history".data

/-- The typed value of one output slot. -/
inductive FieldValue
  | str : Option (List Char) → FieldValue
  | num : Option ℕ → FieldValue
  | hist : List CapacityHistoryEntry → FieldValue
deriving DecidableEq

/-- Reads one slot out of the parser's result triple. -/
def reportFieldValue (r : SystemInfo × BatteryInfo × List CapacityHistoryEntry) :
    ReportField → FieldValue
  | .name => .str r.2.1.name
  | .manufacturer => .str r.2.1.manufacturer
  | .chemistry => .str r.2.1.chemistry
  | .design => .num r.2.1.design_capacity_mwh
  | .fullCharge => .num r.2.1.full_charge_capacity_mwh
  | .cycle => .num r.2.1.cycle_count
  | .product => .str r.1.product
  | .bios => .str r.1.bios
  | .osBuild => .str r.1.os_build
  | .reportTime => .str r.1.report_time
  | .history => .hist r.2.2

/-- The absent value of a slot: `None` for text and numeric fields, the
empty sequence for the history. -/
def fieldAbsent : FieldValue → Prop
  | .str o => o = none
  | .num o => o = none
  | .hist l => l = []

/-- Floor of a rational, written out computably. -/
def ratFloor (q : ℚ) : ℤ := Int.fdiv q.num (q.den : ℤ)

/-- Python's `round` to the nearest integer: half-to-even banker's rounding.
The capacity quotients are modelled in exact rational arithmetic (the claims
state the same symbolic formula the code computes).  With `f = ⌊q⌋` the
fractional part `q - f` compares to `1/2` exactly as `2*(q.num - f*q.den)`
compares to `q.den`, which keeps the definition in integer arithmetic. -/
def pyRoundHalfEven (q : ℚ) : ℤ :=
  let f := ratFloor q
  let rem2 : ℤ := 2 * (q.num - f * (q.den : ℤ))
  if rem2 < (q.den : ℤ) then f
  else if (q.den : ℤ) < rem2 then f + 1
  else if f % 2 = 0 then f else f + 1

/-- `round(x, 2)`. -/
def pyRound2 (q : ℚ) : ℚ := (pyRoundHalfEven (q * 100) : ℚ) / 100

structure HealthAssessment where
  health_percentage : Option ℚ
  degradation_percentage : Option ℚ
  cycle_penalty : ℕ
  estimated_remaining_life : List Char
deriving DecidableEq

/-- `compute_health`.  `if not battery.design_capacity_mwh or not
battery.full_charge_capacity_mwh` treats both `None` and `0` as falsy; the
cycle guard `if battery.cycle_count and battery.cycle_count > 500` likewise
requires a truthy (non-zero) count. -/
def compute_health (b : BatteryInfo) : HealthAssessment :=
  let health_pct : Option ℚ :=
    match b.design_capacity_mwh, b.full_charge_capacity_mwh with
    | some d, some f =>
      if d = 0 ∨ f = 0 then none
      else some (pyRound2 ((f : ℚ) / (d : ℚ) * 100))
    | _, _ => none
  let degradation_pct : Option ℚ :=
    match health_pct with
    | some h => some (pyRound2 (100 - h))
    | none => none
  let cycle_penalty : ℕ :=
    match b.cycle_count with
    | some c => if c ≠ 0 ∧ 500 < c then min 15 ((c - 500) / 50) else 0
    | none => 0
  let life : List Char :=
    match health_pct with
    | none => "unknown".data
    | some h =>
      if 85 ≤ h then "18-24 months".data
      else if 70 ≤ h then "12-18 months".data
      else if 60 ≤ h then "6-12 months".data
      else "0-6 months".data
  { health_percentage := health_pct
    degradation_percentage := degradation_pct
    cycle_penalty := cycle_penalty
    estimated_remaining_life := life }

structure Payload where
  system : SystemInfo
  battery : BatteryInfo
  health : HealthAssessment
  history : List CapacityHistoryEntry
  generated_at : List Char
deriving DecidableEq

/-- `build_payload`.  The JSON dict copies each battery and history field
one by one; `generated_at` is `datetime.utcnow().isoformat() + "Z"`, with the
wall-clock reading passed in as the explicit argument `utcnow_iso`. -/
def build_payload (system_info : SystemInfo) (battery : BatteryInfo)
    (history : List CapacityHistoryEntry) (utcnow_iso : List Char) : Payload :=
  { system := system_info
    battery :=
      { name := battery.name
        manufacturer := battery.manufacturer
        chemistry := battery.chemistry
        design_capacity_mwh := battery.design_capacity_mwh
        full_charge_capacity_mwh := battery.full_charge_capacity_mwh
        cycle_count := battery.cycle_count }
    health := compute_health battery
    history := history.map (fun e =>
      { date := e.date
        full_charge_capacity_mwh := e.full_charge_capacity_mwh
        design_capacity_mwh := e.design_capacity_mwh })
    generated_at := utcnow_iso ++ "Z".data }

/-- Decimal rendering of a natural number (most significant digit first),
used to state the idempotence of Numeric Coercion. -/
def digitChar (n : ℕ) : Char :=
  match n with
  | 0 => '0' | 1 => '1' | 2 => '2' | 3 => '3' | 4 => '4'
  | 5 => '5' | 6 => '6' | 7 => '7' | 8 => '8' | _ => '9'

/-- Fuelled so that the kernel can evaluate it; any fuel above the value
itself is enough, since `n / 10 < n` for `n ≥ 10`. -/
def natToDecCharsAux : ℕ → ℕ → List Char
  | 0, _ => []
  | fuel + 1, n =>
    if n < 10 then [digitChar n]
    else natToDecCharsAux fuel (n / 10) ++ [digitChar (n % 10)]

def natToDecChars (n : ℕ) : List Char := natToDecCharsAux (n + 1) n

/-- The four projections of `compute_health`, spelled out; all four equations
hold definitionally. -/
theorem compute_health_health_eq (b : BatteryInfo) :
    (compute_health b).health_percentage =
      match b.design_capacity_mwh, b.full_charge_capacity_mwh with
      | some d, some f =>
        if d = 0 ∨ f = 0 then none
        else some (pyRound2 ((f : ℚ) / (d : ℚ) * 100))
      | _, _ => none := rfl

theorem compute_health_degr_eq (b : BatteryInfo) :
    (compute_health b).degradation_percentage =
      (compute_health b).health_percentage.map (fun h => pyRound2 (100 - h)) := by
  obtain ⟨nm, mf, ch, dOpt, fOpt, cc⟩ := b
  rcases dOpt with _ | d <;> rcases fOpt with _ | f
  · rfl
  · rfl
  · rfl
  · by_cases hz : d = 0 ∨ f = 0 <;> simp [compute_health, hz]

theorem compute_health_life_eq (b : BatteryInfo) :
    (compute_health b).estimated_remaining_life =
      match (compute_health b).health_percentage with
      | none => "unknown".data
      | some h =>
        if 85 ≤ h then "18-24 months".data
        else if 70 ≤ h then "12-18 months".data
        else if 60 ≤ h then "6-12 months".data
        else "0-6 months".data := rfl

theorem compute_health_penalty_eq (b : BatteryInfo) :
    (compute_health b).cycle_penalty =
      match b.cycle_count with
      | some c => if c ≠ 0 ∧ 500 < c then min 15 ((c - 500) / 50) else 0
      | none => 0 := rfl

/-- C1: the Health Scorer yields `health_percentage` and
`degradation_percentage` both absent when `design_capacity_mwh` or
`full_charge_capacity_mwh` is absent or zero; otherwise
`health_percentage = round(full/design*100, 2)` and
`degradation_percentage = round(100 - health_percentage, 2)`, so the two are
present together. -/
theorem compute_health_percentages_spec (b : BatteryInfo) :
    ((b.design_capacity_mwh = none ∨ b.design_capacity_mwh = some 0 ∨
      b.full_charge_capacity_mwh = none ∨ b.full_charge_capacity_mwh = some 0) →
      (compute_health b).health_percentage = none ∧
      (compute_health b).degradation_percentage = none) ∧
    (∀ d f : ℕ, b.design_capacity_mwh = some d → b.full_charge_capacity_mwh = some f →
      d ≠ 0 → f ≠ 0 →
      (compute_health b).health_percentage = some (pyRound2 ((f : ℚ) / (d : ℚ) * 100)) ∧
      (compute_health b).degradation_percentage =
        some (pyRound2 (100 - pyRound2 ((f : ℚ) / (d : ℚ) * 100)))) ∧
    ((compute_health b).degradation_percentage.isSome ↔
      (compute_health b).health_percentage.isSome) := by
  refine ⟨?_, ?_, ?_⟩
  · intro hz
    have hh : (compute_health b).health_percentage = none := by
      rw [compute_health_health_eq]
      rcases hz with h | h | h | h
      · rw [h]
      · rw [h]; cases b.full_charge_capacity_mwh <;> simp
      · rw [h]; cases b.design_capacity_mwh <;> rfl
      · rw [h]; cases b.design_capacity_mwh <;> simp
    exact ⟨hh, by rw [compute_health_degr_eq, hh]; rfl⟩
  · intro d f hd hf hd0 hf0
    have hh : (compute_health b).health_percentage =
        some (pyRound2 ((f : ℚ) / (d : ℚ) * 100)) := by
      rw [compute_health_health_eq, hd, hf]
      simp [hd0, hf0]
    exact ⟨hh, by rw [compute_health_degr_eq, hh]; rfl⟩
  · rw [compute_health_degr_eq]
    cases (compute_health b).health_percentage <;> simp

/-- Witness for C1 at design = 2000, full charge = 1700 (both conjuncts with
hypotheses exercised). -/
theorem compute_health_percentages_spec_witness :
    (compute_health ⟨none, none, none, some 2000, some 1700, none⟩).health_percentage
      = some (pyRound2 (((1700 : ℕ) : ℚ) / ((2000 : ℕ) : ℚ) * 100)) ∧
    (compute_health ⟨none, none, none, none, some 1700, none⟩).health_percentage = none :=
  ⟨((compute_health_percentages_spec _).2.1 2000 1700 rfl rfl (by decide) (by decide)).1,
   ((compute_health_percentages_spec _).1 (Or.inl rfl)).1⟩

/-- C2: `estimated_remaining_life` is `"unknown"` exactly when
`health_percentage` is absent; otherwise the inclusive lower-bound thresholds
are evaluated top-down (≥85, ≥70, ≥60, else).  Concretely 2000/1700 gives
health 85.0 and "18-24 months", and 1000/699 gives health 69.9 and
"6-12 months". -/
theorem remaining_life_bands_spec (b : BatteryInfo) :
    ((compute_health b).estimated_remaining_life = "unknown".data ↔
      (compute_health b).health_percentage = none) ∧
    (∀ h : ℚ, (compute_health b).health_percentage = some h →
      (85 ≤ h → (compute_health b).estimated_remaining_life = "18-24 months".data) ∧
      (¬ 85 ≤ h → 70 ≤ h →
        (compute_health b).estimated_remaining_life = "12-18 months".data) ∧
      (¬ 85 ≤ h → ¬ 70 ≤ h → 60 ≤ h →
        (compute_health b).estimated_remaining_life = "6-12 months".data) ∧
      (¬ 85 ≤ h → ¬ 70 ≤ h → ¬ 60 ≤ h →
        (compute_health b).estimated_remaining_life = "0-6 months".data)) ∧
    ((compute_health ⟨none, none, none, some 2000, some 1700, none⟩).health_percentage
        = some 85 ∧
     (compute_health ⟨none, none, none, some 2000, some 1700, none⟩).estimated_remaining_life
        = "18-24 months".data) ∧
    ((compute_health ⟨none, none, none, some 1000, some 699, none⟩).health_percentage
        = some (699 / 10) ∧
     (compute_health ⟨none, none, none, some 1000, some 699, none⟩).estimated_remaining_life
        = "6-12 months".data) := by
  refine ⟨?_, ?_, ?_, ?_⟩
  · cases hh : (compute_health b).health_percentage with
    | none =>
      rw [compute_health_life_eq, hh]
      exact iff_of_true rfl rfl
    | some h =>
      rw [compute_health_life_eq, hh]
      refine iff_of_false ?_ (by simp)
      show (if 85 ≤ h then "18-24 months".data
            else if 70 ≤ h then "12-18 months".data
            else if 60 ≤ h then "6-12 months".data
            else "0-6 months".data) ≠ "unknown".data
      split_ifs <;> decide
  · intro h hh
    have hl : (compute_health b).estimated_remaining_life =
        (if 85 ≤ h then "18-24 months".data
         else if 70 ≤ h then "12-18 months".data
         else if 60 ≤ h then "6-12 months".data
         else "0-6 months".data) := by
      rw [compute_health_life_eq, hh]
    refine ⟨fun h85 => ?_, fun h85 h70 => ?_,
      fun h85 h70 h60 => ?_, fun h85 h70 h60 => ?_⟩
    · rw [hl, if_pos h85]
    · rw [hl, if_neg h85, if_pos h70]
    · rw [hl, if_neg h85, if_neg h70, if_pos h60]
    · rw [hl, if_neg h85, if_neg h70, if_neg h60]
  · constructor <;>
      norm_num [compute_health, pyRound2, pyRoundHalfEven, ratFloor]
  · constructor <;>
      norm_num [compute_health, pyRound2, pyRoundHalfEven, ratFloor]

/-- Witness for C2: the top band is taken at exactly 85, and an absent
capacity yields "unknown". -/
theorem remaining_life_bands_spec_witness :
    (compute_health ⟨none, none, none, some 2000, some 1700, none⟩).estimated_remaining_life
      = "18-24 months".data ∧
    (compute_health ⟨none, none, none, none, none, none⟩).estimated_remaining_life
      = "unknown".data :=
  ⟨((remaining_life_bands_spec _).2.1 85 (remaining_life_bands_spec
      (⟨none, none, none, some 2000, some 1700, none⟩ : BatteryInfo)).2.2.1.1).1 (by norm_num),
   (remaining_life_bands_spec _).1.mpr rfl⟩

/-- C3: `cycle_penalty` is 0 when `cycle_count` is absent or at most 500,
otherwise `min 15 ((cycle_count - 500) / 50)` with integer floor division;
in every case it lies between 0 and 15. -/
theorem cycle_penalty_spec (b : BatteryInfo) :
    (b.cycle_count = none → (compute_health b).cycle_penalty = 0) ∧
    (∀ c : ℕ, b.cycle_count = some c → c ≤ 500 → (compute_health b).cycle_penalty = 0) ∧
    (∀ c : ℕ, b.cycle_count = some c → 500 < c →
      (compute_health b).cycle_penalty = min 15 ((c - 500) / 50)) ∧
    0 ≤ (compute_health b).cycle_penalty ∧ (compute_health b).cycle_penalty ≤ 15 := by
  refine ⟨?_, ?_, ?_, Nat.zero_le _, ?_⟩
  · intro h
    rw [compute_health_penalty_eq, h]
  · intro c hc hle
    rw [compute_health_penalty_eq, hc]
    have : ¬ (c ≠ 0 ∧ 500 < c) := by omega
    simp [this]
  · intro c hc hlt
    rw [compute_health_penalty_eq, hc]
    have : c ≠ 0 ∧ 500 < c := ⟨by omega, hlt⟩
    simp [this]
  · rw [compute_health_penalty_eq]
    cases b.cycle_count with
    | none => exact Nat.zero_le 15
    | some c =>
      by_cases h : c ≠ 0 ∧ 500 < c <;> simp [h, Nat.min_le_left]

/-- Witness for C3: cycle counts 500 and 549 give 0, 600 gives 2, 10000 is
capped at 15. -/
theorem cycle_penalty_spec_witness :
    (compute_health ⟨none, none, none, none, none, some 500⟩).cycle_penalty = 0 ∧
    (compute_health ⟨none, none, none, none, none, some 549⟩).cycle_penalty = 0 ∧
    (compute_health ⟨none, none, none, none, none, some 600⟩).cycle_penalty = 2 ∧
    (compute_health ⟨none, none, none, none, none, some 10000⟩).cycle_penalty = 15 := by
  refine ⟨(cycle_penalty_spec _).2.1 500 rfl (by omega), ?_, ?_, ?_⟩
  · rw [(cycle_penalty_spec _).2.2.1 549 rfl (by omega)]; decide
  · rw [(cycle_penalty_spec _).2.2.1 600 rfl (by omega)]; decide
  · rw [(cycle_penalty_spec _).2.2.1 10000 rfl (by omega)]; decide

/-- C4: Numeric Coercion is total (the embedding is a total function) and
never raises: absent and empty inputs yield absent; any other string is
reduced to its digit characters, which give the decimal value when non-empty
and absent (never zero) otherwise. -/
theorem parse_int_total_contract :
    parse_int none = none ∧
    parse_int (some []) = none ∧
    (∀ s : List Char, s ≠ [] →
      (s.filter Char.isDigit = [] → parse_int (some s) = none) ∧
      (s.filter Char.isDigit ≠ [] →
        parse_int (some s) = some (digitsToNat (s.filter Char.isDigit)))) := by
  refine ⟨rfl, rfl, ?_⟩
  intro s hs
  constructor <;> intro hd <;> simp [parse_int, hs, hd]

/-- `scanFirst` returns `none` exactly when the anchored pattern fails at
every position. -/
theorem scanFirst_eq_none_iff (t : List Char → Option (List Char)) (s : List Char) :
    scanFirst t s = none ↔ ∀ i, t (s.drop i) = none := by
  induction s with
  | nil =>
    simp only [scanFirst, List.drop_nil]
    exact ⟨fun h i => h, fun h => h 0⟩
  | cons c cs ih =>
    cases h : t (c :: cs) with
    | some v =>
      have hs : scanFirst t (c :: cs) = some v := by
        simp [scanFirst, h]
      rw [hs]
      simp only [reduceCtorEq, false_iff, not_forall]
      exact ⟨0, by simp [h]⟩
    | none =>
      have hs : scanFirst t (c :: cs) = scanFirst t cs := by
        simp [scanFirst, h]
      rw [hs, ih]
      constructor
      · intro hall i
        cases i with
        | zero => simpa using h
        | succ j => simpa using hall j
      · intro hall i
        simpa using hall (i + 1)

/-- `scanFirst` returns `some v` exactly when the anchored pattern succeeds
at some position with value `v` while failing at every earlier position. -/
theorem scanFirst_eq_some_iff (t : List Char → Option (List Char))
    (s v : List Char) :
    scanFirst t s = some v ↔
      ∃ i, (∀ j < i, t (s.drop j) = none) ∧ t (s.drop i) = some v := by
  induction s with
  | nil =>
    simp only [scanFirst, List.drop_nil]
    constructor
    · intro h
      exact ⟨0, fun j hj => absurd hj (Nat.not_lt_zero j), h⟩
    · rintro ⟨i, -, h⟩
      exact h
  | cons c cs ih =>
    cases h : t (c :: cs) with
    | some w =>
      have hs : scanFirst t (c :: cs) = some w := by
        simp [scanFirst, h]
      rw [hs]
      constructor
      · intro hv
        exact ⟨0, fun j hj => absurd hj (Nat.not_lt_zero j), by simpa [h] using hv⟩
      · rintro ⟨i, hlt, hi⟩
        cases i with
        | zero => simpa [h] using hi
        | succ k => exact absurd (by simpa using hlt 0 (Nat.succ_pos k)) (by simp [h])
    | none =>
      have hs : scanFirst t (c :: cs) = scanFirst t cs := by
        simp [scanFirst, h]
      rw [hs, ih]
      constructor
      · rintro ⟨i, hlt, hi⟩
        refine ⟨i + 1, ?_, by simpa using hi⟩
        intro j hj
        cases j with
        | zero => simpa using h
        | succ k => simpa using hlt k (by omega)
      · rintro ⟨i, hlt, hi⟩
        cases i with
        | zero => rw [List.drop_zero] at hi; exact absurd hi (by simp [h])
        | succ k =>
          exact ⟨k, fun j hj => by simpa using hlt (j + 1) (by omega),
            by simpa using hi⟩

/-- Two anchored patterns that agree pointwise scan identically. -/
theorem scanFirst_congr (t1 t2 : List Char → Option (List Char))
    (h : ∀ s, t1 s = t2 s) (s : List Char) : scanFirst t1 s = scanFirst t2 s := by
  induction s with
  | nil => simpa [scanFirst] using h []
  | cons c cs ih => simp [scanFirst, h (c :: cs), ih]

/-- `stripCI` only looks at the literal through `lowerC`: two literals equal
up to ASCII case strip identically. -/
theorem stripCI_congr (l1 l2 : List Char) (h : l1.map lowerC = l2.map lowerC) :
    ∀ s : List Char, stripCI l1 s = stripCI l2 s := by
  induction l1 generalizing l2 with
  | nil =>
    cases l2 with
    | nil => intro s; rfl
    | cons b bs => simp at h
  | cons a as ih =>
    cases l2 with
    | nil => simp at h
    | cons b bs =>
      simp only [List.map_cons, List.cons.injEq] at h
      intro s
      cases s with
      | nil => rfl
      | cons c cs =>
        simp only [stripCI, h.1]
        by_cases hc : lowerC c = lowerC b
        · simp [hc, ih bs h.2 cs]
        · simp [hc]

/-- Consequently the label/value pattern is case-insensitive in the label. -/
theorem tryPatLabel_congr (l1 l2 : List Char) (h : l1.map lowerC = l2.map lowerC)
    (s : List Char) : tryPatLabel l1 s = tryPatLabel l2 s := by
  unfold tryPatLabel
  rw [stripCI_congr l1 l2 h s]

/-- C7: the Field Extractor returns `none` exactly when the label/value
pattern matches nowhere; when it matches, the result is the normalised capture
of the first matching position in document order (every earlier position
failing); and two labels equal up to ASCII case extract identically. -/
theorem find_label_value_leftmost_spec (html label : List Char) :
    (find_label_value html label = none ↔
      ∀ i, tryPatLabel label (html.drop i) = none) ∧
    (∀ v, find_label_value html label = some v ↔
      ∃ i, (∀ j < i, tryPatLabel label (html.drop j) = none) ∧
        ∃ cap, tryPatLabel label (html.drop i) = some cap ∧ v = clean_html cap) ∧
    (∀ label2, label.map lowerC = label2.map lowerC →
      find_label_value html label = find_label_value html label2) := by
  refine ⟨?_, fun v => ⟨?_, ?_⟩, ?_⟩
  · rw [find_label_value, Option.map_eq_none', scanFirst_eq_none_iff]
  · intro hv
    rw [find_label_value, Option.map_eq_some'] at hv
    obtain ⟨cap, hcap, hv⟩ := hv
    obtain ⟨i, hlt, hi⟩ := (scanFirst_eq_some_iff _ _ _).1 hcap
    exact ⟨i, hlt, cap, hi, hv.symm⟩
  · rintro ⟨i, hlt, cap, hi, rfl⟩
    rw [find_label_value]
    have : scanFirst (tryPatLabel label) html = some cap :=
      (scanFirst_eq_some_iff _ _ _).2 ⟨i, hlt, hi⟩
    rw [this, Option.map_some']
  · intro label2 h2
    rw [find_label_value, find_label_value,
      scanFirst_congr (tryPatLabel label) (tryPatLabel label2)
        (tryPatLabel_congr label label2 h2) html]

/-- Witness for C7: in a document with two Name rows the first one is
returned, also under an upper-case query label. -/
theorem find_label_value_leftmost_spec_witness :
    find_label_value "Name</td><td>A</td>Name</td><td>B</td>".data "Name".data
      = some ['A'] ∧
    find_label_value "Name</td><td>A</td>Name</td><td>B</td>".data "NAME".data
      = some ['A'] := by
  have h1 : find_label_value "Name</td><td>A</td>Name</td><td>B</td>".data "Name".data
      = some ['A'] :=
    ((find_label_value_leftmost_spec
        "Name</td><td>A</td>Name</td><td>B</td>".data "Name".data).2.1 ['A']).2
      ⟨0, fun j hj => absurd hj (Nat.not_lt_zero j), "A".data, by decide, by decide⟩
  refine ⟨h1, ?_⟩
  rw [(find_label_value_leftmost_spec
      "Name</td><td>A</td>Name</td><td>B</td>".data "NAME".data).2.2 "Name".data
      (by decide)]
  exact h1

/-- C10: when the label/value pattern matches with a capture that normalises
to the empty string, the Field Extractor returns the present empty string,
not absent — distinguishable from a missing field — while Numeric Coercion
maps that empty string to absent, exactly as it maps a missing input. -/
theorem empty_value_distinguishable (html label : List Char) (i : ℕ)
    (hfirst : ∀ j < i, tryPatLabel label (html.drop j) = none)
    (hmatch : ∃ cap, tryPatLabel label (html.drop i) = some cap ∧
      clean_html cap = []) :
    find_label_value html label = some [] ∧
    find_label_value html label ≠ none ∧
    parse_int (find_label_value html label) = none ∧
    parse_int none = none := by
  obtain ⟨cap, hcap, hclean⟩ := hmatch
  have h : find_label_value html label = some [] := by
    rw [find_label_value, (scanFirst_eq_some_iff _ _ _).2 ⟨i, hfirst, hcap⟩,
      Option.map_some', hclean]
  exact ⟨h, by rw [h]; simp, by rw [h]; rfl, rfl⟩

/-- Witness for C10: a whitespace-only value cell. -/
theorem empty_value_distinguishable_witness :
    find_label_value "Name</td><td> </td>".data "Name".data = some [] ∧
    parse_int (find_label_value "Name</td><td> </td>".data "Name".data) = none := by
  have h := empty_value_distinguishable "Name</td><td> </td>".data "Name".data 0
    (fun j hj => absurd hj (Nat.not_lt_zero j))
    ⟨[' '], by decide, by decide⟩
  exact ⟨h.1, h.2.2.1⟩

theorem digitsToNat_append (xs : List Char) (c : Char) :
    digitsToNat (xs ++ [c]) = 10 * digitsToNat xs + (c.toNat - 48) := by
  simp [digitsToNat, List.foldl_append]

theorem digitChar_toNat (n : ℕ) (h : n < 10) : (digitChar n).toNat - 48 = n := by
  interval_cases n <;> decide

theorem digitChar_isDigit (n : ℕ) (h : n < 10) : (digitChar n).isDigit = true := by
  interval_cases n <;> decide

/-- The decimal rendering is a non-empty digit string whose digit fold gives
the number back (for any sufficient fuel). -/
theorem natToDecCharsAux_spec (fuel : ℕ) : ∀ n : ℕ, n < fuel →
    digitsToNat (natToDecCharsAux fuel n) = n ∧
    (∀ c ∈ natToDecCharsAux fuel n, c.isDigit = true) ∧
    natToDecCharsAux fuel n ≠ [] := by
  induction fuel with
  | zero => intro n h; omega
  | succ fuel ih =>
    intro n h
    by_cases h10 : n < 10
    · have h1 : natToDecCharsAux (fuel + 1) n = [digitChar n] := by
        simp [natToDecCharsAux, h10]
      rw [h1]
      refine ⟨?_, ?_, by simp⟩
      · have h2 : digitsToNat [digitChar n] = (digitChar n).toNat - 48 := by
          simp [digitsToNat]
        rw [h2, digitChar_toNat n h10]
      · intro c hc
        simp only [List.mem_singleton] at hc
        subst hc
        exact digitChar_isDigit n h10
    · have hd : n / 10 < fuel := by
        have h2 : n / 10 < n := Nat.div_lt_self (by omega) (by omega)
        omega
      obtain ⟨ih1, ih2, ih3⟩ := ih (n / 10) hd
      have h1 : natToDecCharsAux (fuel + 1) n =
          natToDecCharsAux fuel (n / 10) ++ [digitChar (n % 10)] := by
        simp [natToDecCharsAux, h10]
      rw [h1]
      refine ⟨?_, ?_, by simp⟩
      · rw [digitsToNat_append, ih1, digitChar_toNat _ (Nat.mod_lt _ (by omega))]
        omega
      · intro c hc
        rcases List.mem_append.1 hc with hc | hc
        · exact ih2 c hc
        · simp only [List.mem_singleton] at hc
          subst hc
          exact digitChar_isDigit _ (Nat.mod_lt _ (by omega))

theorem natToDecChars_spec (n : ℕ) :
    digitsToNat (natToDecChars n) = n ∧
    (∀ c ∈ natToDecChars n, c.isDigit = true) ∧ natToDecChars n ≠ [] :=
  natToDecCharsAux_spec (n + 1) n (Nat.lt_succ_self n)

/-- C9: Numeric Coercion is idempotent on clean digit strings: a non-empty
all-digit string coerces to exactly the number its digits denote, so whenever
coercion yields `n`, coercing the decimal rendering of `n` yields `n` again;
the empty string and the absent input coerce to absent. -/
theorem parse_int_idempotent_on_digits :
    (∀ s : List Char, s ≠ [] → (∀ c ∈ s, c.isDigit = true) →
      parse_int (some s) = some (digitsToNat s)) ∧
    (∀ (s : List Char) (n : ℕ), parse_int (some s) = some n →
      parse_int (some (natToDecChars n)) = some n) ∧
    parse_int (some []) = none ∧ parse_int none = none := by
  have hclean : ∀ s : List Char, s ≠ [] → (∀ c ∈ s, c.isDigit = true) →
      parse_int (some s) = some (digitsToNat s) := by
    intro s hs hd
    have hf : s.filter Char.isDigit = s := List.filter_eq_self.2 hd
    simp [parse_int, hs, hf]
  refine ⟨hclean, ?_, rfl, rfl⟩
  intro s n _hn
  obtain ⟨h1, h2, h3⟩ := natToDecChars_spec n
  rw [hclean (natToDecChars n) h3 h2, h1]

/-- Witness for C9: "1000" coerces to 1000 and re-coercing the rendering of
1000 gives 1000 again. -/
theorem parse_int_idempotent_on_digits_witness :
    parse_int (some "1000".data) = some 1000 ∧
    parse_int (some (natToDecChars 1000)) = some 1000 := by
  constructor
  · rw [parse_int_idempotent_on_digits.1 "1000".data (by decide) (by decide)]
    decide
  · exact parse_int_idempotent_on_digits.2.1 "1000".data 1000 (by decide)

/-- Witness for C4: "1,000 mWh" coerces to 1000, "abc" to absent. -/
theorem parse_int_total_contract_witness :
    parse_int (some "1,000 mWh".data) = some 1000 ∧
    parse_int (some "abc".data) = none := by
  constructor
  · rw [(parse_int_total_contract.2.2 "1,000 mWh".data (by decide)).2 (by decide)]
    decide
  · exact (parse_int_total_contract.2.2 "abc".data (by decide)).1 (by decide)

/-- The history output is a function of the extracted section alone. -/
theorem parse_capacity_history_congr (h1 h2 : List Char)
    (h : extract_section h1 "Battery capacity history".data
       = extract_section h2 "Battery capacity history".data) :
    parse_capacity_history h1 = parse_capacity_history h2 := by
  unfold parse_capacity_history
  rw [h]

/-- C6: the Report Parser is total by construction (it returns a complete
`SystemInfo × BatteryInfo × history` triple for every document) and every one
of its eleven slots is independently optional: a slot whose label (or
section) extraction is missing comes out absent, and whenever every other
slot's extraction agrees between two documents, every other output slot
agrees — so a missing field leaves all other fields exactly as they would be
were it present. -/
theorem report_fields_independent (html : List Char) (f : ReportField) :
    (fieldSource html f = none →
      fieldAbsent (reportFieldValue (parse_battery_report html) f)) ∧
    (∀ h2 : List Char,
      (∀ g : ReportField, g ≠ f → fieldSource html g = fieldSource h2 g) →
      ∀ g : ReportField, g ≠ f →
        reportFieldValue (parse_battery_report html) g =
          reportFieldValue (parse_battery_report h2) g) := by
  constructor
  · intro hmiss
    cases f
    case history =>
      simp only [fieldSource] at hmiss
      have hh : parse_capacity_history html = [] := by
        unfold parse_capacity_history
        rw [hmiss]
      simp [reportFieldValue, fieldAbsent, parse_battery_report, hh]
    all_goals
      simp only [fieldSource] at hmiss
      simp [reportFieldValue, fieldAbsent, parse_battery_report,
        parse_system_info, parse_int, hmiss]
  · intro h2 hs g hg
    have hsg := hs g hg
    cases g
    case history =>
      simp only [fieldSource] at hsg
      show FieldValue.hist (parse_capacity_history html)
        = FieldValue.hist (parse_capacity_history h2)
      exact congrArg FieldValue.hist (parse_capacity_history_congr html h2 hsg)
    all_goals
      simp only [fieldSource] at hsg
      simp [reportFieldValue, parse_battery_report, parse_system_info, hsg]

/-- Witness for C6: the empty document misses the Name label and parses to an
absent name, and a document containing only a Name row agrees with the empty
document on every other slot (manufacturer and history instantiated). -/
theorem report_fields_independent_witness :
    fieldAbsent (reportFieldValue (parse_battery_report []) ReportField.name) ∧
    reportFieldValue (parse_battery_report "Name</td><td>X</td>".data)
        ReportField.manufacturer
      = reportFieldValue (parse_battery_report []) ReportField.manufacturer ∧
    reportFieldValue (parse_battery_report "Name</td><td>X</td>".data)
        ReportField.history
      = reportFieldValue (parse_battery_report []) ReportField.history ∧
    reportFieldValue (parse_battery_report "Name</td><td>X</td>".data)
        ReportField.name
      = FieldValue.str (some ['X']) := by
  refine ⟨(report_fields_independent [] ReportField.name).1 (by decide),
    (report_fields_independent "Name</td><td>X</td>".data ReportField.name).2 []
      (by decide) ReportField.manufacturer (by decide),
    (report_fields_independent "Name</td><td>X</td>".data ReportField.name).2 []
      (by decide) ReportField.history (by decide),
    by decide⟩

theorem stripCI_some_ne_nil (lit s r : List Char) (hlit : lit ≠ [])
    (h : stripCI lit s = some r) : s ≠ [] := by
  cases lit with
  | nil => exact absurd rfl hlit
  | cons l ls =>
    cases s with
    | nil => simp [stripCI] at h
    | cons c cs => simp

/-- A successful section match always captures a non-empty fragment (it
starts with the matched `<table`). -/
theorem tryPatSection_ne_nil (title s t : List Char)
    (h : tryPatSection title s = some t) : t ≠ [] := by
  unfold tryPatSection at h
  split at h
  · exact absurd h (by simp)
  split at h
  · exact absurd h (by simp)
  split at h
  · exact absurd h (by simp)
  next s5 hstrip =>
    split at h
    · exact absurd h (by simp)
    next mid rest hsplit =>
      obtain rfl := Option.some.inj h
      obtain ⟨a, as, ha⟩ := List.exists_cons_of_ne_nil
        (stripCI_some_ne_nil "<table".data _ s5 (by decide) hstrip)
      rw [ha]
      have hlen : 6 + mid.length + 8 = (5 + mid.length + 8) + 1 := by omega
      rw [hlen, List.take_succ_cons]
      simp

theorem extract_section_ne_nil (html title t : List Char)
    (h : extract_section html title = some t) : t ≠ [] := by
  rw [extract_section] at h
  obtain ⟨i, -, hi⟩ := (scanFirst_eq_some_iff _ _ _).1 h
  exact tryPatSection_ne_nil title _ t hi

/-- The row loop of `_parse_capacity_history` is exactly a filter of the
per-row cell lists followed by an entry per surviving row, in row order. -/
theorem historyRows_eq (rows : List (List Char)) :
    historyRows rows = ((rows.map cellsOfRow).filter keepRow).map rowEntry := by
  induction rows with
  | nil => rfl
  | cons row rest ih =>
    by_cases hk : keepRow (cellsOfRow row) = true
    · have hcond : ¬ ((cellsOfRow row).length < 3 ∨
          ((cellsOfRow row).headD []).map lowerC = "period".data) := by
        simp only [keepRow, Bool.and_eq_true, decide_eq_true_eq] at hk
        push_neg
        exact ⟨by omega, hk.2⟩
      rw [List.map_cons, List.filter_cons_of_pos hk, List.map_cons, ← ih]
      simp only [historyRows, if_neg hcond]
    · have hk' : keepRow (cellsOfRow row) = false := by
        simp only [Bool.not_eq_true] at hk
        exact hk
      have hcond : (cellsOfRow row).length < 3 ∨
          ((cellsOfRow row).headD []).map lowerC = "period".data := by
        simp only [keepRow, Bool.and_eq_true, decide_eq_true_eq] at hk
        push_neg at hk
        by_cases hlen : 3 ≤ (cellsOfRow row).length
        · exact Or.inr (hk hlen)
        · exact Or.inl (by omega)
      rw [List.map_cons, List.filter_cons_of_neg (by simp [hk']), ← ih]
      simp only [historyRows, if_pos hcond]

/-- C5: with the capacity-history section absent the History Table Parser
returns the empty sequence; otherwise it maps the table's rows, in document
order, through cell splitting and normalisation, keeps exactly the rows with
at least 3 cells whose first cell is not "period" case-insensitively, and
builds date / full-charge / design entries from cells 1-3. -/
theorem capacity_history_rows_spec (html : List Char) :
    (extract_section html "Battery capacity history".data = none →
      parse_capacity_history html = []) ∧
    (∀ t, extract_section html "Battery capacity history".data = some t →
      parse_capacity_history html =
        (((findAllTR t).map cellsOfRow).filter keepRow).map rowEntry) := by
  constructor
  · intro h
    unfold parse_capacity_history
    rw [h]
  · intro t ht
    have hne : t ≠ [] := extract_section_ne_nil html _ t ht
    unfold parse_capacity_history
    rw [ht]
    show (if t = [] then [] else historyRows (findAllTR t)) = _
    rw [if_neg hne, historyRows_eq]

/-- Witness for C5: a table with a header row (dropped), a data row (kept)
and a short row (dropped). -/
theorem capacity_history_rows_spec_witness :
    parse_capacity_history
        "Battery capacity history</h2><table><tr><th>Period</th><th>F</th><th>D</th></tr><tr><td>P1</td><td>100</td><td>200</td></tr><tr><td>x</td></tr></table>".data
      = [⟨['P', '1'], some 100, some 200⟩] ∧
    parse_capacity_history "no section here".data = [] := by
  constructor
  · rw [(capacity_history_rows_spec _).2
      "<table><tr><th>Period</th><th>F</th><th>D</th></tr><tr><td>P1</td><td>100</td><td>200</td></tr><tr><td>x</td></tr></table>".data
      (by decide)]
    decide
  · exact (capacity_history_rows_spec _).1 (by decide)

/-- C8 counterexample: the assembled payload is not a function of the
document text alone.  `datetime.utcnow()` is the one impure input of
`build_payload`, modelled as its explicit clock argument: the same (empty)
document assembled at two clock readings yields different payloads, because
`generated_at` embeds the reading. -/
theorem pipeline_not_pure_counterexample :
    build_payload (parse_battery_report []).1 (parse_battery_report []).2.1
        (parse_battery_report []).2.2 "2024-01-01T00:00:00".data ≠
      build_payload (parse_battery_report []).1 (parse_battery_report []).2.1
        (parse_battery_report []).2.2 "2024-01-01T00:00:01".data := by
  decide

/-- C8 (amended): parsing and scoring are pure functions of the document
text, and the assembled payload depends only on the document and the clock
reading: two payloads built from the same document agree on every field
except `generated_at`, and re-running the pipeline with an equal clock
reading yields a byte-identical payload. -/
theorem payload_pure_modulo_timestamp (html t1 t2 : List Char) :
    (build_payload (parse_battery_report html).1 (parse_battery_report html).2.1
        (parse_battery_report html).2.2 t1).system =
      (build_payload (parse_battery_report html).1 (parse_battery_report html).2.1
        (parse_battery_report html).2.2 t2).system ∧
    (build_payload (parse_battery_report html).1 (parse_battery_report html).2.1
        (parse_battery_report html).2.2 t1).battery =
      (build_payload (parse_battery_report html).1 (parse_battery_report html).2.1
        (parse_battery_report html).2.2 t2).battery ∧
    (build_payload (parse_battery_report html).1 (parse_battery_report html).2.1
        (parse_battery_report html).2.2 t1).health =
      (build_payload (parse_battery_report html).1 (parse_battery_report html).2.1
        (parse_battery_report html).2.2 t2).health ∧
    (build_payload (parse_battery_report html).1 (parse_battery_report html).2.1
        (parse_battery_report html).2.2 t1).history =
      (build_payload (parse_battery_report html).1 (parse_battery_report html).2.1
        (parse_battery_report html).2.2 t2).history ∧
    (t1 = t2 →
      build_payload (parse_battery_report html).1 (parse_battery_report html).2.1
          (parse_battery_report html).2.2 t1 =
        build_payload (parse_battery_report html).1 (parse_battery_report html).2.1
          (parse_battery_report html).2.2 t2) :=
  ⟨rfl, rfl, rfl, rfl, fun h => by rw [h]⟩

/-- Witness for C8: equal clock readings give byte-identical payloads. -/
theorem payload_pure_modulo_timestamp_witness :
    build_payload (parse_battery_report []).1 (parse_battery_report []).2.1
        (parse_battery_report []).2.2 "2024-01-01T00:00:00".data =
      build_payload (parse_battery_report []).1 (parse_battery_report []).2.1
        (parse_battery_report []).2.2 "2024-01-01T00:00:00".data :=
  (payload_pure_modulo_timestamp [] "2024-01-01T00:00:00".data
    "2024-01-01T00:00:00".data).2.2.2.2 rfl

end BatteryAgent
